import Mathlib

/-!
Shallow embedding of the reconciliation ETL pipeline (`app/etl.py` of the
Lucernex Project Dashboard repository) together with proofs of the frozen
specification claims.

Modelling conventions:
* Nullable text fields are modelled as `String`, with `""` standing for both
  SQL `NULL` and the empty string — Python truthiness (`or`, `not`) collapses
  the two for every use the embedded code makes of them.
* Monetary amounts (BigQuery `FLOAT64`) are modelled as `Option Int`:
  `none` is SQL `NULL`, and the Python coercion `x or 0` becomes
  `Option.getD x 0` (Python maps both `None` and `0.0` to `0`, which agrees
  with `getD` on values).
* Python dicts used as keyed maps are modelled as association lists with a
  key-overwriting insert (`insertKV`); only lookup and key-set behaviour of
  the dicts is ever observed by the embedded code.
* SQL aggregation semantics (SUM ignoring NULLs and returning NULL on
  all-NULL groups, NULL arithmetic, NULL comparisons being not-TRUE) are
  embedded explicitly (`sqlSum`, `sqlSub`, `sqlGtZero`).
-/

/-- Key-overwriting insert into an association list: the Python dict
assignment `m[k] = v`.  Only lookup/key-set behaviour is observed, so
dropping any previous binding of `k` and consing the new one is faithful. -/
def insertKV {β : Type} (m : List (String × β)) (k : String) (v : β) :
    List (String × β) :=
  (k, v) :: m.filter (fun q => q.1 ≠ k)

/-- First-match lookup in an association list: Python `m.get(k)` / `m[k]`. -/
def lookupKV {β : Type} (k : String) : List (String × β) → Option β
  | [] => none
  | q :: m => if q.1 = k then some q.2 else lookupKV k m

/-- Substring containment on character lists, by direct recursion: the
needle is a prefix of some suffix of the haystack. -/
def listInfixOf (needle : List Char) : List Char → Bool
  | [] => needle.isEmpty
  | c :: rest => needle.isPrefixOf (c :: rest) || listInfixOf needle rest

/-- Plain substring test: Python `needle in hay` on strings. -/
def strContains (hay needle : String) : Bool :=
  listInfixOf needle.toList hay.toList

/-- Python `s.lower()` (character-wise lowering; the embedded texts are
ASCII). -/
def lowerStr (s : String) : String :=
  String.mk (s.toList.map Char.toLower)

/-- Python truthiness of `s.strip()` being falsy: the string is empty or
all-whitespace. -/
def isBlankStr (s : String) : Bool :=
  s.toList.all Char.isWhitespace

/-- The project record shape produced by `pull_projects` (only the fields the
verified properties read; remaining fields of the BigQuery row are never
consulted by the embedded code paths). -/
structure ProjRec where
  project_id : String
  store : String
  project_status : String
  sap_project_definition : String
  brief_scope_of_work : String
  general_contractor : String
  pmo_sr_pm_comments : String
  sap_actuals : Option Int
  sap_open_commitments : Option Int
  total_contract_amount : Option Int
  contractor_po_amount : Option Int
  created_date : String
  lucernex_updated_at : String
  deriving DecidableEq, Repr

/-- The PO record shape shared by `pull_purchase_orders`,
`pull_sams_umbrella_pos` and `pull_comment_referenced_pos` outputs. -/
structure PORec where
  po_number : String
  sap_project_definition : String
  vendor : String
  po_total : Option Int
  invoiced_to_date : Option Int
  remaining_to_invoice : Option Int
  po_status : String
  created_date : String
  last_update : String
  deriving DecidableEq, Repr

/-- A raw umbrella-feed row (`pull_sams_umbrella_pos` query result), before
attribution. -/
structure UmbrellaRow where
  store_nbr : String
  po_number : String
  vendor : String
  item_text : String
  po_total : Option Int
  invoiced_to_date : Option Int
  remaining_to_invoice : Option Int
  po_status : String
  created_date : String
  last_update : String
  deriving DecidableEq, Repr

/- ── §4.1 Identity Resolver: `_build_store_to_sap_map` ─────────────── -/

/-- `"duplicate" in scope or "cancelled" in scope` on the lowered scope text
(etl.py lines 250-252). -/
def isDupeProj (p : ProjRec) : Bool :=
  let scope := lowerStr p.brief_scope_of_work
  strContains scope "duplicate" || strContains scope "cancelled"

/-- One iteration of the `_build_store_to_sap_map` loop (etl.py 244-256). -/
def buildStoreToSapStep (m : List (String × String)) (p : ProjRec) :
    List (String × String) :=
  if p.store = "" || p.sap_project_definition = "" then m
  else if (lookupKV p.store m).isNone ||
      (!isDupeProj p && lowerStr p.project_status = "active") then
    insertKV m p.store p.sap_project_definition
  else m

/-- `_build_store_to_sap_map(projects)` (etl.py 237-258). -/
def buildStoreToSapMap (projects : List ProjRec) : List (String × String) :=
  projects.foldl buildStoreToSapStep []

/- ── §4.2 Indirect PO Attributor: `pull_sams_umbrella_pos` ─────────── -/

/-- `_ITEM_TEXT_STORE_RE = re.compile(r"^(\d+)UCOTank", re.IGNORECASE)`,
applied with `.match` (anchored at the start) and read through `.group(1)`.
The greedy anchored `(\d+)` followed by a letter-initial literal captures
exactly the maximal leading run of digits, and the match succeeds iff that
run is non-empty and is immediately followed by `UCOTank` case-insensitively. -/
def extractItemStore (s : String) : Option String :=
  let cs := s.toList
  let ds := cs.takeWhile Char.isDigit
  if ds.isEmpty then none
  else if ((cs.drop ds.length).take 7).map Char.toLower = "ucotank".toList
  then some (String.mk ds)
  else none

/-- Resolution of the real target store for an umbrella row
(etl.py 208-214): the regex capture when the item text matches, else the
plain `store_nbr` field of the row. -/
def realStore (row : UmbrellaRow) : String :=
  let r := match extractItemStore row.item_text with
    | some d => d
    | none => ""
  if r = "" then row.store_nbr else r

/-- Normalised PO emitted for an attributable umbrella row
(etl.py 221-231), with the `or 0` monetary coercions already applied. -/
def umbrellaToPO (row : UmbrellaRow) (sapDef : String) : PORec :=
  { po_number := row.po_number
    sap_project_definition := sapDef
    vendor := row.vendor
    po_total := some (row.po_total.getD 0)
    invoiced_to_date := some (row.invoiced_to_date.getD 0)
    remaining_to_invoice := some (row.remaining_to_invoice.getD 0)
    po_status := row.po_status
    created_date := row.created_date
    last_update := row.last_update }

/-- The attribution loop of `pull_sams_umbrella_pos` (etl.py 204-234):
rows whose resolved store has no (truthy) entry in `store_to_sap` are
skipped, the rest are emitted with the looked-up cost-center key. -/
def mapUmbrellaRows (storeToSap : List (String × String))
    (rows : List UmbrellaRow) : List PORec :=
  rows.filterMap (fun row =>
    let sapDef := (lookupKV (realStore row) storeToSap).getD ""
    if sapDef = "" then none else some (umbrellaToPO row sapDef))

/- ── SQL aggregation semantics for the PO source queries ───────────── -/

/-- One raw line of `vw_rps_purchase_order` inside one `GROUP BY` group:
the PO-line amount and the invoice amount (each nullable — per the source
comment they live on separate rows). -/
structure RawPOLine where
  net : Option Int
  invoiced : Option Int
  deriving DecidableEq, Repr

/-- SQL `SUM` over a group: NULLs are ignored and an all-NULL (or empty)
group sums to NULL. -/
def sqlSum (xs : List (Option Int)) : Option Int :=
  let vs := xs.filterMap id
  if vs.isEmpty then none else some vs.sum

/-- SQL subtraction: NULL-propagating. -/
def sqlSub : Option Int → Option Int → Option Int
  | some a, some b => some (a - b)
  | _, _ => none

/-- SQL `x > 0` used in a `HAVING` filter: NULL compares not-TRUE. -/
def sqlGtZero : Option Int → Bool
  | some a => a > 0
  | none => false

/-- The `HAVING SUM(net) > 0 OR SUM(invoiced) > 0` filter shared by all
three PO queries. -/
def havingPasses (lines : List RawPOLine) : Bool :=
  sqlGtZero (sqlSum (lines.map (·.net))) ||
  sqlGtZero (sqlSum (lines.map (·.invoiced)))

/-- The grouped row shape of the `pull_purchase_orders` query
(etl.py 109-129): `po_total`, `invoiced_to_date` are the two SQL sums and
`remaining_to_invoice` is their SQL difference. -/
def directPORow (poNumber sapDef vendor : String) (lines : List RawPOLine)
    (status createdDate lastUpdate : String) : PORec :=
  { po_number := poNumber
    sap_project_definition := sapDef
    vendor := vendor
    po_total := sqlSum (lines.map (·.net))
    invoiced_to_date := sqlSum (lines.map (·.invoiced))
    remaining_to_invoice :=
      sqlSub (sqlSum (lines.map (·.net))) (sqlSum (lines.map (·.invoiced)))
    po_status := status
    created_date := createdDate
    last_update := lastUpdate }

/- ── §4.3 Comment-Mined Recovery ───────────────────────────────────── -/

/-- ASCII whitespace class of the pattern class `\s`. -/
def isSpaceChar (c : Char) : Bool :=
  c = ' ' || c = '\t' || c = '\n' || c = '\r' ||
  c = Char.ofNat 11 || c = Char.ofNat 12

/-- Case-insensitive match of the alternation `(?:APTIM|INSTALLER)` at the
head of the text; returns the remainder after the keyword.  The two
branches start with different letters, so the left-to-right
preference of the regex engine cannot change the outcome. -/
def matchKeywordCI (cs : List Char) : Option (List Char) :=
  if (cs.take 5).map Char.toLower = "aptim".toList then some (cs.drop 5)
  else if (cs.take 9).map Char.toLower = "installer".toList then
    some (cs.drop 9)
  else none

/-- Case-insensitive `PO` literal at the head of the text. -/
def matchPOToken (cs : List Char) : Option (List Char) :=
  if (cs.take 2).map Char.toLower = "po".toList then some (cs.drop 2)
  else none

/-- The optional `#?`: consuming the hash when present is forced, because a
digit and never a hash must follow otherwise. -/
def dropHash : List Char → List Char
  | '#' :: rest => rest
  | cs => cs

/-- Attempt to match `(?:APTIM|INSTALLER)\s+PO#?\s*(\d{8})` (IGNORECASE)
anchored at the head of `cs`; on success return the 8-digit capture and the
remainder of the text after the whole match.  `\s+`/`\s*` are greedy and
followed by non-whitespace literals/digits, so taking the maximal
whitespace run is exact. -/
def tryMatchAt (cs : List Char) : Option (String × List Char) :=
  match matchKeywordCI cs with
  | none => none
  | some r1 =>
    if (r1.dropWhile isSpaceChar).length = r1.length then none
    else
      match matchPOToken (r1.dropWhile isSpaceChar) with
      | none => none
      | some r3 =>
        if (((dropHash r3).dropWhile isSpaceChar).take 8).length = 8 &&
            (((dropHash r3).dropWhile isSpaceChar).take 8).all Char.isDigit then
          some (String.mk (((dropHash r3).dropWhile isSpaceChar).take 8),
            ((dropHash r3).dropWhile isSpaceChar).drop 8)
        else none

/-- `re.findall` scan: try a match at each position, emit the capture and
resume after the matched text, else advance one character.  `fuel` bounds
the recursion; every step strictly shrinks the text, so `fuel := length`
(see `commentPOs`) never runs out early. -/
def findallPO : Nat → List Char → List String
  | 0, _ => []
  | _ + 1, [] => []
  | fuel + 1, c :: rest =>
    match tryMatchAt (c :: rest) with
    | some (d, rem) => d :: findallPO fuel rem
    | none => findallPO fuel rest

/-- `_COMMENT_PO_RE.findall(comments)` (etl.py 386-388, 403). -/
def commentPOs (s : String) : List String :=
  findallPO s.toList.length s.toList

/-- Eligibility filter of the `_parse_comment_po_map` loop (etl.py 399-401):
skip projects with blank comments or no cost-center key. -/
def commentElig (p : ProjRec) : Bool :=
  !(isBlankStr p.pmo_sr_pm_comments) && !(p.sap_project_definition = "")

/-- `_parse_comment_po_map(projects)` (etl.py 391-405): mined PO number ->
the cost-center key of the commenting project, later assignments overwriting. -/
def parseCommentPoMap (projects : List ProjRec) : List (String × String) :=
  projects.foldl
    (fun m p =>
      if commentElig p then
        (commentPOs p.pmo_sr_pm_comments).foldl
          (fun m' n => insertKV m' n p.sap_project_definition) m
      else m)
    []

/-- The set of PO numbers the recovery fetch requests
(etl.py 424, 431, 444): mined keys not already collected.  The source list
is ordered (`sorted(missing)`) before splicing, but only its membership is
ever observed, so the filtered key list models the requested set. -/
def requestedPOs (poToSap : List (String × String)) (existing : List String) :
    List String :=
  (poToSap.map Prod.fst).filter (fun n => !existing.contains n)

/-- A `pull_comment_referenced_pos` query result row (etl.py 433-442):
grouped by PO number and vendor, with the same SQL-summed amounts. -/
structure FetchRow where
  po_number : String
  vendor : String
  po_total : Option Int
  invoiced_to_date : Option Int
  remaining_to_invoice : Option Int
  po_status : String
  created_date : String
  last_update : String
  deriving DecidableEq, Repr

/-- The record built for one recovered row (etl.py 451-463): the mined map
supplies the cost-center key (`po_to_sap[po_num]`; the `WHERE IN` clause of the fetch
clause guarantees the key is present, which the theorems make explicit). -/
def mkRecovered (poToSap : List (String × String)) (r : FetchRow) : PORec :=
  { po_number := r.po_number
    sap_project_definition := (lookupKV r.po_number poToSap).getD ""
    vendor := r.vendor
    po_total := some (r.po_total.getD 0)
    invoiced_to_date := some (r.invoiced_to_date.getD 0)
    remaining_to_invoice := some (r.remaining_to_invoice.getD 0)
    po_status := r.po_status
    created_date := r.created_date
    last_update := r.last_update }

/- ── §4.4 Merge & Dedup (run_etl, etl.py 623-644) ──────────────────── -/

/-- One merge step: append the PO unless its number was already seen, and
record the number as seen. -/
def mergeStep (acc : List PORec × List String) (po : PORec) :
    List PORec × List String :=
  if acc.2.contains po.po_number then acc
  else (acc.1 ++ [po], po.po_number :: acc.2)

/-- The merged PO list handed to the loader: direct POs kept wholesale,
then umbrella POs and comment-recovered POs appended when their PO number
is not yet present (etl.py 624-644). -/
def mergePos (direct sams comment : List PORec) : List PORec :=
  let init : List PORec × List String := (direct, direct.map (·.po_number))
  (comment.foldl mergeStep (sams.foldl mergeStep init)).1

/- ── §4.5 Loader: `load_to_sqlite` (etl.py 281-378) ────────────────── -/

/-- A persisted `projects` row (the columns the verified properties read). -/
structure StoredProject where
  project_id : String
  store : String
  project_status : String
  sap_project_definition : String
  general_contractor : String
  created_date : String
  lucernex_updated_at : String
  deriving DecidableEq, Repr

/-- A persisted `sap_po` row: the monetary columns are written through the
`or 0` coercion, so they are plain integers, never NULL. -/
structure StoredPO where
  po_number : String
  sap_project_definition : String
  vendor : String
  po_total : Int
  invoiced_to_date : Int
  remaining_to_invoice : Int
  po_status : String
  created_date : String
  last_update : String
  deriving DecidableEq, Repr

/-- A persisted `sap_budget` row (keyed by `sap_project_definition`). -/
structure BudgetRow where
  budget_total : Int
  budget_open : Int
  budget_committed : Int
  budget_actuals : Int
  sap_updated_at : String
  deriving DecidableEq, Repr

/-- `INSERT OR IGNORE` under a primary key: keep the first row seen for
each key, drop later rows with an already-present key. -/
def dedupByKeyAux {α : Type} (key : α → String) (seen : List String) :
    List α → List α
  | [] => []
  | x :: xs =>
    if seen.contains (key x) then dedupByKeyAux key seen xs
    else x :: dedupByKeyAux key (key x :: seen) xs

/-- `INSERT OR IGNORE` applied to a whole list, starting from an empty
table. -/
def dedupByKey {α : Type} (key : α → String) (l : List α) : List α :=
  dedupByKeyAux key [] l

/-- The `projects` row written for a source project (etl.py 294-317). -/
def storeProjectRow (p : ProjRec) : StoredProject :=
  { project_id := p.project_id
    store := p.store
    project_status := p.project_status
    sap_project_definition := p.sap_project_definition
    general_contractor := p.general_contractor
    created_date := p.created_date
    lucernex_updated_at := p.lucernex_updated_at }

/-- The `sap_po` row written for a merged PO (etl.py 342-354): the three
monetary fields go through `or 0`. -/
def storePORow (po : PORec) : StoredPO :=
  { po_number := po.po_number
    sap_project_definition := po.sap_project_definition
    vendor := po.vendor
    po_total := po.po_total.getD 0
    invoiced_to_date := po.invoiced_to_date.getD 0
    remaining_to_invoice := po.remaining_to_invoice.getD 0
    po_status := po.po_status
    created_date := po.created_date
    last_update := po.last_update }

/-- The `sap_budget` row computed from the direct financial fields of a project
(etl.py 319-335): actuals + open commitments when that total is positive,
else the contract amount, every null coerced to zero. -/
def budgetRow (p : ProjRec) : BudgetRow :=
  let total := p.sap_actuals.getD 0 + p.sap_open_commitments.getD 0
  { budget_total := if total > 0 then total else p.total_contract_amount.getD 0
    budget_open := p.sap_open_commitments.getD 0
    budget_committed := p.contractor_po_amount.getD 0
    budget_actuals := p.sap_actuals.getD 0
    sap_updated_at := p.lucernex_updated_at }

/-- The `sap_budget` table after the project loop: one `INSERT OR REPLACE`
per project with a truthy cost-center key, so the last project seen for a
key determines its row. -/
def budgetTable (projects : List ProjRec) : List (String × BudgetRow) :=
  projects.foldl
    (fun t p =>
      if p.sap_project_definition = "" then t
      else insertKV t p.sap_project_definition (budgetRow p))
    []

/-- Per-vendor sum of `po_total` over a set of stored PO rows
(the `SUM(po.po_total)` of the backfill subquery). -/
def vendorSum (pos : List StoredPO) (v : String) : Int :=
  ((pos.filter (fun po => po.vendor = v)).map (·.po_total)).sum

/-- The backfill subquery `SELECT vendor ... GROUP BY vendor ORDER BY
SUM(po_total) DESC LIMIT 1` (etl.py 363-370) over the PO rows of one project:
a vendor with maximal summed PO value.  SQLite leaves the choice among
tied maxima unspecified; the embedding keeps the first such vendor in row
order, and the theorems only use the value when the maximum is unique. -/
def bestVendor (pos : List StoredPO) : Option String :=
  match (pos.map (·.vendor)).dedup with
  | [] => none
  | v :: vs =>
    some (vs.foldl (fun b w => if vendorSum pos w > vendorSum pos b then w else b) v)

/-- The contractor backfill UPDATE (etl.py 361-374) applied to one stored
project row.  `""` models SQL NULL, and a NULL `sap_project_definition`
matches neither the `IN` filter nor the correlated subquery, hence the
explicit non-empty guard. -/
def backfillGC (poTable : List StoredPO) (sp : StoredProject) : StoredProject :=
  if sp.sap_project_definition ≠ "" ∧
      poTable.filter (fun po =>
        po.sap_project_definition = sp.sap_project_definition) ≠ [] then
    { sp with general_contractor :=
        ((bestVendor (poTable.filter (fun po =>
          po.sap_project_definition = sp.sap_project_definition))).getD
          sp.general_contractor) }
  else sp

/-- The `sap_po` table: `INSERT OR IGNORE` keyed by `po_number` over the
merged list, in list order. -/
def poTable (pos : List PORec) : List StoredPO :=
  (dedupByKey (·.po_number) pos).map storePORow

/-- The three persisted tables (projects / sap_po / sap_budget). -/
structure DBState where
  projects : List StoredProject
  sap_po : List StoredPO
  sap_budget : List (String × BudgetRow)
  deriving DecidableEq, Repr

/-- The contents `load_to_sqlite` leaves in the three tables, as a function
of its two inputs: projects are `INSERT OR IGNORE`d by `project_id` and
then contractor-backfilled from the PO table; POs are `INSERT OR IGNORE`d
by `po_number`; budget rows are `INSERT OR REPLACE`d by cost-center key. -/
def loadTables (projects : List ProjRec) (pos : List PORec) : DBState :=
  let poT := poTable pos
  { projects := ((dedupByKey (·.project_id) projects).map storeProjectRow).map
      (backfillGC poT)
    sap_po := poT
    sap_budget := budgetTable projects }

/-- `load_to_sqlite` as a transformer of persisted state: it first clears
the three tables (etl.py 287-289) and then rebuilds them from its inputs
alone, so the prior state is discarded wholesale. -/
def loadToSqlite (projects : List ProjRec) (pos : List PORec)
    (s : DBState) : DBState :=
  let cleared : DBState := { s with projects := [], sap_po := [], sap_budget := [] }
  let built := loadTables projects pos
  { cleared with
      projects := cleared.projects ++ built.projects
      sap_po := cleared.sap_po ++ built.sap_po
      sap_budget := cleared.sap_budget ++ built.sap_budget }

/- ── Auxiliary definitions used by theorem statements and proofs ───── -/

/-- The PO sublist a merge fold appends: each PO whose number is not in
`seen` and not already appended, in order.  `mergePos` is proved equal to
concatenating `addNew` runs (lemma `foldl_mergeStep_eq`). -/
def addNew (seen : List String) : List PORec → List PORec
  | [] => []
  | po :: rest =>
    if seen.contains po.po_number then addNew seen rest
    else po :: addNew (po.po_number :: seen) rest

/-- A project is map-eligible for `store`: non-empty store equal to
`store`, and a truthy cost-center key (the skip test of the
`_build_store_to_sap_map` loop). -/
def storeEligFor (store : String) (p : ProjRec) : Bool :=
  !(store = "") && p.store = store && !(p.sap_project_definition = "")

/-- A "good" candidate in the store-map collision rule: active status and
a scope free of duplicate/cancelled markers. -/
def goodCandidate (p : ProjRec) : Bool :=
  !isDupeProj p && lowerStr p.project_status = "active"

/-- The project mines PO number `n`: it passes the comment-eligibility
test and its commentary matches the pattern with capture `n`. -/
def mentionsPO (p : ProjRec) (n : String) : Bool :=
  commentElig p && (commentPOs p.pmo_sr_pm_comments).contains n

/-- `v` is the strict argmax of per-vendor PO-total sums over `pos`:
it occurs among the vendors and every other vendor has a strictly smaller
sum. -/
def isUniqueMaxVendor (pos : List StoredPO) (v : String) : Prop :=
  v ∈ pos.map (·.vendor) ∧
  ∀ w ∈ pos.map (·.vendor), w ≠ v → vendorSum pos w < vendorSum pos v

/- ── Association-list lemmas ───────────────────────────────────────── -/

theorem lookupKV_insertKV_self {β : Type} (m : List (String × β)) (k : String)
    (v : β) : lookupKV k (insertKV m k v) = some v := by
  simp [insertKV, lookupKV]

theorem lookupKV_filter_ne {β : Type} (m : List (String × β)) {k k₀ : String}
    (h : k ≠ k₀) :
    lookupKV k (m.filter (fun q => q.1 ≠ k₀)) = lookupKV k m := by
  induction m with
  | nil => rfl
  | cons q m ih =>
    by_cases hq : q.1 = k₀
    · have hqk : ¬ q.1 = k := fun hk => h (hk ▸ hq)
      rw [List.filter_cons, if_neg (by simp [hq])]
      rw [ih]
      simp only [lookupKV, if_neg hqk]
    · by_cases hk : q.1 = k
      · rw [List.filter_cons, if_pos (by simp [hq])]
        simp only [lookupKV, if_pos hk]
      · rw [List.filter_cons, if_pos (by simp [hq])]
        simp only [lookupKV, if_neg hk]
        exact ih

theorem lookupKV_insertKV_ne {β : Type} (m : List (String × β))
    {k k' : String} (v : β) (h : k' ≠ k) :
    lookupKV k' (insertKV m k v) = lookupKV k' m := by
  simp only [insertKV, lookupKV]
  rw [if_neg (fun hk => h hk.symm)]
  exact lookupKV_filter_ne m h

theorem mem_insertKV {β : Type} {m : List (String × β)} {k : String} {v : β}
    {q : String × β} (h : q ∈ insertKV m k v) : q = (k, v) ∨ q ∈ m := by
  simp only [insertKV, List.mem_cons] at h
  rcases h with h | h
  · exact Or.inl h
  · exact Or.inr (List.mem_of_mem_filter h)

theorem lookupKV_isSome_iff_mem_keys {β : Type} (m : List (String × β))
    (k : String) : (lookupKV k m).isSome ↔ k ∈ m.map Prod.fst := by
  induction m with
  | nil => simp [lookupKV]
  | cons q m ih =>
    by_cases hk : q.1 = k
    · simp [lookupKV, hk]
    · simp only [lookupKV, if_neg hk, List.map_cons, List.mem_cons, ih]
      constructor
      · exact Or.inr
      · rintro (hh | hh)
        · exact absurd hh.symm hk
        · exact hh

theorem lookupKV_mem {β : Type} {m : List (String × β)} {k : String} {v : β}
    (h : lookupKV k m = some v) : (k, v) ∈ m := by
  induction m with
  | nil => simp [lookupKV] at h
  | cons q m ih =>
    cases q with
    | mk a b =>
      by_cases hk : a = k
      · subst hk
        simp only [lookupKV, if_pos rfl] at h
        obtain rfl := Option.some_injective _ h
        exact List.mem_cons_self _ _
      · simp only [lookupKV, if_neg hk] at h
        exact List.mem_cons_of_mem _ (ih h)

theorem getLast?_cons_or {α : Type} (a : α) (l : List α) :
    (a :: l).getLast? = l.getLast?.or (some a) := by
  induction l generalizing a with
  | nil => rfl
  | cons b l ih =>
    rw [List.getLast?_cons_cons]
    have hs : ((b :: l).getLast?).isSome := by
      rw [ih b]
      cases l.getLast? <;> simp [Option.or]
    cases hh : (b :: l).getLast? with
    | none => rw [hh] at hs; simp at hs
    | some x => rfl

theorem optionMap_or {α γ : Type} (f : α → γ) (x y : Option α) :
    (x.or y).map f = (x.map f).or (y.map f) := by
  cases x <;> rfl

theorem or_some_or {α : Type} (x : Option α) (v : α) (y : Option α) :
    (x.or (some v)).or y = x.or (some v) := by
  cases x <;> rfl

/- ── Store-map fold characterisation ───────────────────────────────── -/

theorem buildMap_foldl_lookup (ps : List ProjRec) (store : String) :
    ∀ m, lookupKV store (ps.foldl buildStoreToSapStep m) =
      (((ps.filter (fun p => storeEligFor store p && goodCandidate p)).getLast?).map
          (·.sap_project_definition)).or
        ((lookupKV store m).or
          (((ps.filter (storeEligFor store)).head?).map (·.sap_project_definition))) := by
  induction ps with
  | nil => intro m; simp
  | cons p ps ih =>
    intro m
    rw [List.foldl_cons]
    by_cases helig : storeEligFor store p = true
    · have hstore : p.store = store := by
        simp only [storeEligFor, Bool.and_eq_true, decide_eq_true_eq,
          Bool.not_eq_true', decide_eq_false_iff_not] at helig
        exact helig.1.2
      have hs0 : ¬ store = "" := by
        simp only [storeEligFor, Bool.and_eq_true, Bool.not_eq_true',
          decide_eq_false_iff_not] at helig
        exact helig.1.1
      have hd0 : ¬ p.sap_project_definition = "" := by
        simp only [storeEligFor, Bool.and_eq_true, Bool.not_eq_true',
          decide_eq_false_iff_not] at helig
        exact helig.2
      by_cases hgood : goodCandidate p = true
      · have hstep : buildStoreToSapStep m p =
            insertKV m store p.sap_project_definition := by
          unfold buildStoreToSapStep
          split
          · rename_i hcontra
            exfalso
            simp only [Bool.or_eq_true, decide_eq_true_eq] at hcontra
            rcases hcontra with hc | hc
            · exact hs0 (hstore.symm.trans hc)
            · exact hd0 hc
          · split
            · rw [hstore]
            · rename_i hcf
              exfalso
              apply hcf
              rw [Bool.or_eq_true]
              right
              simpa [goodCandidate] using hgood
        rw [hstep, ih, lookupKV_insertKV_self]
        rw [List.filter_cons, if_pos (by simp [helig, hgood])]
        rw [getLast?_cons_or, optionMap_or]
        simp only [Option.map_some']
        rw [or_some_or, Option.or_some]
      · have hpred : (storeEligFor store p && goodCandidate p) = false := by
          cases hb : goodCandidate p
          · simp
          · exact absurd hb hgood
        cases hl : lookupKV store m with
        | none =>
          have hstep : buildStoreToSapStep m p =
              insertKV m store p.sap_project_definition := by
            unfold buildStoreToSapStep
            split
            · rename_i hcontra
              exfalso
              simp only [Bool.or_eq_true, decide_eq_true_eq] at hcontra
              rcases hcontra with hc | hc
              · exact hs0 (hstore.symm.trans hc)
              · exact hd0 hc
            · split
              · rw [hstore]
              · rename_i hcf
                exfalso
                apply hcf
                rw [Bool.or_eq_true]
                left
                rw [hstore, hl]
                rfl
          rw [hstep, ih, lookupKV_insertKV_self]
          rw [List.filter_cons, if_neg (by simp [hpred]),
            List.filter_cons, if_pos (by simp [helig])]
          simp only [List.head?_cons, Option.map_some', Option.none_or,
            Option.or_some]
        | some v =>
          have hstep : buildStoreToSapStep m p = m := by
            unfold buildStoreToSapStep
            split
            · rfl
            · split
              · rename_i hct
                exfalso
                rw [hstore, hl, Bool.or_eq_true] at hct
                rcases hct with hct | hct
                · simp at hct
                · apply hgood
                  simpa [goodCandidate] using hct
              · rfl
          rw [hstep, ih]
          rw [List.filter_cons, if_neg (by simp [hpred]),
            List.filter_cons, if_pos (by simp [helig])]
          simp only [List.head?_cons, Option.map_some', hl, Option.or_some]
    · have heligf : storeEligFor store p = false := by
        cases hb : storeEligFor store p
        · rfl
        · exact absurd hb helig
      have hkeep : lookupKV store (buildStoreToSapStep m p) = lookupKV store m := by
        unfold buildStoreToSapStep
        split
        · rfl
        · rename_i hcond
          have hne : store ≠ p.store := by
            intro hcontra
            apply helig
            subst hcontra
            have hs : ¬ p.store = "" := by
              intro hc
              exact hcond (by rw [hc]; rfl)
            have hd : ¬ p.sap_project_definition = "" := by
              intro hc
              apply hcond
              rw [hc, Bool.or_eq_true]
              right
              rfl
            simp [storeEligFor, hs, hd]
          split
          · exact lookupKV_insertKV_ne m _ hne
          · rfl
      rw [ih, hkeep]
      rw [List.filter_cons, if_neg (by simp [heligf]),
        List.filter_cons, if_neg (by simp [heligf])]

/-- C2 counterexample: two projects for store 5624, both with status
"Active" and a scope containing neither "duplicate" nor "cancelled" — an
equally-good later candidate.  The claim says the later one never
displaces the first (USFC-000001), but `_build_store_to_sap_map` maps the
store to the later one (USFC-000002): any active clean candidate
overwrites, regardless of the quality of the current holder. -/
theorem store_map_equal_candidates_cex :
    lookupKV "5624"
      (buildStoreToSapMap
        [{ project_id := "1", store := "5624", project_status := "Active",
           sap_project_definition := "USFC-000001",
           brief_scope_of_work := "replace water heater",
           general_contractor := "", pmo_sr_pm_comments := "",
           sap_actuals := none, sap_open_commitments := none,
           total_contract_amount := none, contractor_po_amount := none,
           created_date := "", lucernex_updated_at := "" },
         { project_id := "2", store := "5624", project_status := "Active",
           sap_project_definition := "USFC-000002",
           brief_scope_of_work := "replace water heater",
           general_contractor := "", pmo_sr_pm_comments := "",
           sap_actuals := none, sap_open_commitments := none,
           total_contract_amount := none, contractor_po_amount := none,
           created_date := "", lucernex_updated_at := "" }]) =
      some "USFC-000002" ∧ ("USFC-000002" : String) ≠ "USFC-000001" := by
  constructor
  · decide
  · decide

/-- C2 (amended): the first project seen for a store (with both a store
number and a cost-center key) establishes the mapping, and a later project
overwrites it exactly when the later project itself is active with a scope
free of duplicate/cancelled markers — the LAST such good candidate wins,
even over an equally-good or better earlier holder; later candidates that
are not (active ∧ clean) never displace an established mapping. -/
theorem store_map_last_good_candidate_wins (ps : List ProjRec) (store : String) :
    lookupKV store (buildStoreToSapMap ps) =
      (((ps.filter (fun p => storeEligFor store p && goodCandidate p)).getLast?).map
          (·.sap_project_definition)).or
        (((ps.filter (storeEligFor store)).head?).map (·.sap_project_definition)) := by
  have h := buildMap_foldl_lookup ps store []
  rw [buildStoreToSapMap, h]
  simp [lookupKV]

/-- C9: `load_to_sqlite` clears the three tables and rebuilds them from
its input lists alone, so applying the clear-and-replace load twice with
the same inputs leaves exactly the state of applying it once — the
persisted Project, PO and BudgetSummary tables are identical across the
two runs. -/
theorem load_to_sqlite_idempotent (projects : List ProjRec) (pos : List PORec)
    (s : DBState) :
    loadToSqlite projects pos (loadToSqlite projects pos s) =
      loadToSqlite projects pos s := rfl

/- ── Umbrella attribution lemmas ───────────────────────────────────── -/

theorem extract_item_store_nonempty {s d : String}
    (h : extractItemStore s = some d) : d ≠ "" := by
  simp only [extractItemStore] at h
  split at h
  · exact absurd h (by simp)
  · split at h
    · rename_i h1 h2
      injection h with h
      subst h
      intro hc
      apply h1
      have hnil : (s.toList.takeWhile Char.isDigit) = [] := congrArg String.data hc
      rw [hnil]
      rfl
    · exact absurd h (by simp)

/-- C4: for every umbrella PO row, when the item description matches the
fixed store-extraction pattern the attribution resolves the store from the
embedded digits, ignoring the row store-number field; the raw store-number
field is used exactly when the pattern does not match. -/
theorem umbrella_store_attribution (row : UmbrellaRow) :
    (∀ d, extractItemStore row.item_text = some d → realStore row = d) ∧
    (extractItemStore row.item_text = none → realStore row = row.store_nbr) := by
  constructor
  · intro d h
    have hne := extract_item_store_nonempty h
    simp only [realStore, h]
    rw [if_neg hne]
  · intro h
    simp only [realStore, h]
    simp

/-- C4 witness: a description beginning with digits 4724 followed by the
marker token, on a row whose raw store field is the hub store 6439:
attribution uses the embedded 4724. -/
theorem umbrella_store_attribution_witness :
    extractItemStore "4724UCOTanks" = some "4724" ∧
    realStore ⟨"6439", "40000002", "Reynalds Brothers", "4724UCOTanks",
        some 100, some 0, some 100, "", "", ""⟩ = "4724" := by
  refine ⟨by decide, ?_⟩
  exact (umbrella_store_attribution _).1 "4724" (by decide)

theorem buildStoreToSapMap_values_ne_empty (ps : List ProjRec) :
    ∀ kv ∈ buildStoreToSapMap ps, kv.2 ≠ "" := by
  rw [buildStoreToSapMap]
  suffices h : ∀ m, (∀ kv ∈ m, kv.2 ≠ ("" : String)) →
      ∀ kv ∈ ps.foldl buildStoreToSapStep m, kv.2 ≠ "" by
    exact h [] (by simp)
  induction ps with
  | nil => intro m hm; simpa using hm
  | cons p ps ih =>
    intro m hm
    rw [List.foldl_cons]
    apply ih
    intro kv hkv
    unfold buildStoreToSapStep at hkv
    split at hkv
    · exact hm kv hkv
    · rename_i hcond
      split at hkv
      · rcases mem_insertKV hkv with rfl | hkv2
        · simp only [Bool.or_eq_true, decide_eq_true_eq, not_or] at hcond
          exact hcond.2
        · exact hm _ hkv2
      · exact hm kv hkv

/-- C5: over the store→cost-center map built from the project list, the
umbrella attribution loop emits exactly one PO record (with the looked-up
cost-center key attached) for every row whose resolved store is present in
the map, and silently excludes every row whose resolved store is absent —
the function is total, so it returns normally in both cases. -/
theorem umbrella_unattributable_skipped (projects : List ProjRec)
    (rows : List UmbrellaRow) :
    mapUmbrellaRows (buildStoreToSapMap projects) rows =
      (rows.filter (fun r =>
          (lookupKV (realStore r) (buildStoreToSapMap projects)).isSome)).map
        (fun r => umbrellaToPO r
          ((lookupKV (realStore r) (buildStoreToSapMap projects)).getD "")) := by
  induction rows with
  | nil => rfl
  | cons r rows ih =>
    simp only [mapUmbrellaRows] at ih ⊢
    cases hl : lookupKV (realStore r) (buildStoreToSapMap projects) with
    | none =>
      rw [List.filterMap_cons_none (by simp [hl])]
      rw [List.filter_cons, if_neg (by simp [hl])]
      exact ih
    | some v =>
      have hv : v ≠ "" := buildStoreToSapMap_values_ne_empty projects _ (lookupKV_mem hl)
      rw [List.filterMap_cons_some (b := umbrellaToPO r v) (by simp [hl, hv])]
      rw [List.filter_cons, if_pos (by simp [hl]), List.map_cons, ih]
      simp [hl]

/-- C3 counterexample: a source PO group holding a single invoice-side row
(PO-line amount NULL, invoice amount 500) passes the `HAVING` filter, and
the loader stores committed 0, invoiced 500, remaining 0 — the stored
remaining-to-invoice does not equal stored committed minus stored invoiced
(0 ≠ −500), because each field is null-coerced to zero independently. -/
theorem po_remaining_mismatch_cex :
    havingPasses [⟨none, some 500⟩] = true ∧
    (storePORow (directPORow "40000001" "USFC-009320" "APTIM Environmental"
        [⟨none, some 500⟩] "K" "2024-01-01" "2024-01-02")).po_total = 0 ∧
    (storePORow (directPORow "40000001" "USFC-009320" "APTIM Environmental"
        [⟨none, some 500⟩] "K" "2024-01-01" "2024-01-02")).invoiced_to_date = 500 ∧
    (storePORow (directPORow "40000001" "USFC-009320" "APTIM Environmental"
        [⟨none, some 500⟩] "K" "2024-01-01" "2024-01-02")).remaining_to_invoice ≠
      (storePORow (directPORow "40000001" "USFC-009320" "APTIM Environmental"
          [⟨none, some 500⟩] "K" "2024-01-01" "2024-01-02")).po_total -
        (storePORow (directPORow "40000001" "USFC-009320" "APTIM Environmental"
            [⟨none, some 500⟩] "K" "2024-01-01" "2024-01-02")).invoiced_to_date := by
  refine ⟨by decide, by decide, by decide, by decide⟩

/-- C3 (amended): the loader stores zero, never null, for each missing
monetary field, and whenever the source committed and invoiced sums are
both non-null or both null (with remaining computed by the source as their
SQL difference), the stored remaining-to-invoice equals stored committed
minus stored invoiced exactly; when exactly one of the two sums is null
the stored remaining is zero, which can differ from the difference. -/
theorem po_amounts_zero_coercion (po : PORec)
    (hrem : po.remaining_to_invoice = sqlSub po.po_total po.invoiced_to_date)
    (hnn : (po.po_total.isSome ∧ po.invoiced_to_date.isSome) ∨
      (po.po_total = none ∧ po.invoiced_to_date = none)) :
    (po.po_total = none → (storePORow po).po_total = 0) ∧
    (po.invoiced_to_date = none → (storePORow po).invoiced_to_date = 0) ∧
    (po.remaining_to_invoice = none → (storePORow po).remaining_to_invoice = 0) ∧
    (storePORow po).remaining_to_invoice =
      (storePORow po).po_total - (storePORow po).invoiced_to_date := by
  refine ⟨fun h => by simp [storePORow, h], fun h => by simp [storePORow, h],
    fun h => by simp [storePORow, h], ?_⟩
  rcases hnn with ⟨h1, h2⟩ | ⟨h1, h2⟩
  · obtain ⟨a, ha⟩ := Option.isSome_iff_exists.mp h1
    obtain ⟨b, hb⟩ := Option.isSome_iff_exists.mp h2
    simp [storePORow, hrem, ha, hb, sqlSub]
  · simp [storePORow, hrem, h1, h2, sqlSub]

/-- C3 witness: a group with a PO-line row of 100 and an invoice row of 40
satisfies the amended claim, with stored remaining 60 = 100 − 40. -/
theorem po_amounts_zero_coercion_witness :
    (storePORow (directPORow "40000003" "USFC-009320" "APTIM Environmental"
        [⟨some 100, none⟩, ⟨none, some 40⟩] "K" "2024-01-01" "2024-01-02")).remaining_to_invoice =
      (storePORow (directPORow "40000003" "USFC-009320" "APTIM Environmental"
          [⟨some 100, none⟩, ⟨none, some 40⟩] "K" "2024-01-01" "2024-01-02")).po_total -
        (storePORow (directPORow "40000003" "USFC-009320" "APTIM Environmental"
            [⟨some 100, none⟩, ⟨none, some 40⟩] "K" "2024-01-01" "2024-01-02")).invoiced_to_date :=
  (po_amounts_zero_coercion _ (by decide) (by decide)).2.2.2

/- ── Budget table lemmas ───────────────────────────────────────────── -/

theorem budget_foldl_preserve (k : String) :
    ∀ (l : List ProjRec) (t : List (String × BudgetRow)),
      (∀ q ∈ l, q.sap_project_definition ≠ k) →
      lookupKV k (l.foldl (fun t p =>
          if p.sap_project_definition = "" then t
          else insertKV t p.sap_project_definition (budgetRow p)) t) =
        lookupKV k t := by
  intro l
  induction l with
  | nil => intro t _; rfl
  | cons q l ih =>
    intro t hk
    rw [List.foldl_cons, ih _ (fun r hr => hk r (List.mem_cons_of_mem q hr))]
    by_cases hq : q.sap_project_definition = ""
    · simp only [if_pos hq]
    · simp only [if_neg hq]
      exact lookupKV_insertKV_ne t _ (fun h => hk q (List.mem_cons_self q l) h.symm)

/-- C8: for every project with a non-empty cost-center key (and no later
project in the load order carrying the same key, the table being keyed by
cost center with replace-on-conflict), the persisted budget row is exactly
`budgetRow p`, whose total equals actuals plus open commitments (nulls as
zero) when that sum is positive and the contract amount (or zero) when the
sum is non-positive. -/
theorem budget_total_formula (l₁ l₂ : List ProjRec) (p : ProjRec)
    (pos : List PORec) (hsap : p.sap_project_definition ≠ "")
    (hlast : ∀ q ∈ l₂, q.sap_project_definition ≠ p.sap_project_definition) :
    lookupKV p.sap_project_definition
        (loadTables (l₁ ++ p :: l₂) pos).sap_budget =
      some (budgetRow p) ∧
    (budgetRow p).budget_total =
      (if p.sap_actuals.getD 0 + p.sap_open_commitments.getD 0 > 0
       then p.sap_actuals.getD 0 + p.sap_open_commitments.getD 0
       else p.total_contract_amount.getD 0) := by
  constructor
  · show lookupKV _ (budgetTable (l₁ ++ p :: l₂)) = _
    rw [budgetTable, List.foldl_append, List.foldl_cons]
    rw [budget_foldl_preserve _ l₂ _ hlast]
    simp only [if_neg hsap]
    exact lookupKV_insertKV_self _ _ _
  · rfl

/-- C8 witness: a project with actuals 150 and open commitments 50 gets a
persisted budget row with total 200. -/
theorem budget_total_formula_witness :
    lookupKV "USFC-000009"
        (loadTables [⟨"41", "4101", "Active", "USFC-000009", "", "", "",
            some 150, some 50, some 300, none, "", ""⟩] []).sap_budget =
      some (budgetRow ⟨"41", "4101", "Active", "USFC-000009", "", "", "",
            some 150, some 50, some 300, none, "", ""⟩) :=
  (budget_total_formula [] [] ⟨"41", "4101", "Active", "USFC-000009", "", "",
      "", some 150, some 50, some 300, none, "", ""⟩ [] (by decide)
    (by simp)).1

/- ── Comment-mining capture lemmas ─────────────────────────────────── -/

theorem tryMatchAt_capture_digits {cs : List Char} {d : String}
    {rem : List Char} (h : tryMatchAt cs = some (d, rem)) :
    d.data.length = 8 ∧ ∀ c ∈ d.data, c.isDigit := by
  unfold tryMatchAt at h
  split at h
  · exact absurd h (by simp)
  · split at h
    · exact absurd h (by simp)
    · split at h
      · exact absurd h (by simp)
      · split at h
        · rename_i hcond
          injection h with h
          injection h with h1 h2
          subst h1
          rw [Bool.and_eq_true] at hcond
          constructor
          · have := hcond.1
            simpa using this
          · intro c hc
            have := List.all_eq_true.mp hcond.2
            exact this c hc
        · exact absurd h (by simp)

theorem findallPO_digits :
    ∀ (fuel : Nat) (cs : List Char) (d : String), d ∈ findallPO fuel cs →
      d.data.length = 8 ∧ ∀ c ∈ d.data, c.isDigit := by
  intro fuel
  induction fuel with
  | zero => intro cs d h; simp [findallPO] at h
  | succ fuel ih =>
    intro cs d h
    cases cs with
    | nil => simp [findallPO] at h
    | cons c rest =>
      simp only [findallPO] at h
      cases hm : tryMatchAt (c :: rest) with
      | none =>
        rw [hm] at h
        exact ih rest d h
      | some pr =>
        obtain ⟨d0, rem⟩ := pr
        rw [hm] at h
        rcases List.mem_cons.mp h with rfl | h2
        · exact tryMatchAt_capture_digits hm
        · exact ih rem d h2

theorem insert_foldl_keys_pred {β : Type} (P : String → Prop)
    (nums : List String) (v : β) :
    ∀ m, (∀ kv ∈ m, P kv.1) → (∀ n ∈ nums, P n) →
      ∀ kv ∈ nums.foldl (fun m' n => insertKV m' n v) m, P kv.1 := by
  induction nums with
  | nil => intro m hm _ kv hkv; exact hm kv hkv
  | cons n nums ih =>
    intro m hm hn kv hkv
    rw [List.foldl_cons] at hkv
    refine ih _ ?_ (fun x hx => hn x (List.mem_cons_of_mem n hx)) kv hkv
    intro q hq
    rcases mem_insertKV hq with rfl | hq2
    · exact hn n (List.mem_cons_self n nums)
    · exact hm q hq2

theorem parseCommentPoMap_keys_digits (ps : List ProjRec) :
    ∀ kv ∈ parseCommentPoMap ps,
      kv.1.data.length = 8 ∧ ∀ c ∈ kv.1.data, c.isDigit := by
  rw [parseCommentPoMap]
  suffices h : ∀ (m : List (String × String)),
      (∀ kv ∈ m, kv.1.data.length = 8 ∧ ∀ c ∈ kv.1.data, c.isDigit) →
      ∀ kv ∈ ps.foldl (fun m p =>
          if commentElig p then
            (commentPOs p.pmo_sr_pm_comments).foldl
              (fun m' n => insertKV m' n p.sap_project_definition) m
          else m) m,
        kv.1.data.length = 8 ∧ ∀ c ∈ kv.1.data, c.isDigit by
    exact h [] (by simp)
  induction ps with
  | nil => intro m hm; simpa using hm
  | cons p ps ih =>
    intro m hm
    rw [List.foldl_cons]
    apply ih
    by_cases he : commentElig p = true
    · simp only [if_pos he]
      exact insert_foldl_keys_pred _ _ _ m hm
        (fun n hn => findallPO_digits _ _ n hn)
    · simp only [if_neg he]
      exact hm

/-- C10: every key of the map produced by comment mining is a string of
exactly 8 decimal digits (the regex capture group), so every identifier in
the batched recovery fetch request list is an 8-digit numeral; commentary
that does not match the fixed pattern contributes nothing to the map. -/
theorem comment_map_keys_eight_digits (ps : List ProjRec)
    (existing : List String) :
    (∀ kv ∈ parseCommentPoMap ps,
      kv.1.data.length = 8 ∧ ∀ c ∈ kv.1.data, c.isDigit) ∧
    (∀ n ∈ requestedPOs (parseCommentPoMap ps) existing,
      n.data.length = 8 ∧ ∀ c ∈ n.data, c.isDigit) := by
  refine ⟨parseCommentPoMap_keys_digits ps, ?_⟩
  intro n hn
  rw [requestedPOs] at hn
  obtain ⟨hmem, _⟩ := List.mem_filter.mp hn
  obtain ⟨kv, hkv, rfl⟩ := List.mem_map.mp hmem
  exact parseCommentPoMap_keys_digits ps kv hkv

/-- C10 witness: the key mined from the commentary "APTIM PO# 40836460" is
the 8-digit capture 40836460. -/
theorem comment_map_keys_eight_digits_witness :
    ("40836460" : String).data.length = 8 ∧
    ∀ c ∈ ("40836460" : String).data, c.isDigit :=
  (comment_map_keys_eight_digits
      [⟨"1", "", "Active", "USFC-000001", "", "",
        "APTIM PO# 40836460", none, none, none, none, "", ""⟩] []).1
    ("40836460", "USFC-000001") (by decide)

/- ── Comment-map lookup characterisation ───────────────────────────── -/

theorem lookupKV_foldl_insert (nums : List String) (v : String) :
    ∀ (m : List (String × String)) (k : String),
      lookupKV k (nums.foldl (fun m' n => insertKV m' n v) m) =
        if nums.contains k then some v else lookupKV k m := by
  induction nums with
  | nil => intro m k; simp
  | cons n nums ih =>
    intro m k
    rw [List.foldl_cons, ih]
    by_cases hk : nums.contains k = true
    · rw [if_pos hk, if_pos (by rw [List.contains_cons, hk, Bool.or_true])]
    · rw [if_neg hk]
      by_cases hnk : n = k
      · subst hnk
        rw [lookupKV_insertKV_self,
          if_pos (by rw [List.contains_cons, beq_self_eq_true, Bool.true_or])]
      · rw [lookupKV_insertKV_ne _ _ (fun h => hnk h.symm), if_neg ?_]
        intro hcc
        rw [List.contains_cons, Bool.or_eq_true] at hcc
        rcases hcc with hcc | hcc
        · exact hnk (beq_iff_eq.mp hcc).symm
        · exact hk hcc

theorem parse_foldl_lookup (ps : List ProjRec) (n : String) :
    ∀ m, lookupKV n (ps.foldl (fun m p =>
        if commentElig p then
          (commentPOs p.pmo_sr_pm_comments).foldl
            (fun m' x => insertKV m' x p.sap_project_definition) m
        else m) m) =
      (((ps.filter (fun p => mentionsPO p n)).getLast?).map
        (·.sap_project_definition)).or (lookupKV n m) := by
  induction ps with
  | nil => intro m; simp
  | cons p ps ih =>
    intro m
    rw [List.foldl_cons, ih]
    by_cases he : commentElig p = true
    · by_cases hc : (commentPOs p.pmo_sr_pm_comments).contains n = true
      · have hm : mentionsPO p n = true := by
          simp only [mentionsPO, he, hc, Bool.and_self]
        rw [List.filter_cons, if_pos hm]
        rw [getLast?_cons_or, optionMap_or]
        simp only [Option.map_some']
        rw [or_some_or]
        simp only [if_pos he]
        rw [lookupKV_foldl_insert, if_pos hc]
      · have hcF : (commentPOs p.pmo_sr_pm_comments).contains n = false := by
          cases hb : (commentPOs p.pmo_sr_pm_comments).contains n
          · rfl
          · exact absurd hb hc
        have hm : ¬ (mentionsPO p n = true) := by
          simp only [mentionsPO, he, hcF, Bool.and_false, Bool.true_and]
          exact Bool.false_ne_true
        rw [List.filter_cons, if_neg hm]
        simp only [if_pos he]
        rw [lookupKV_foldl_insert, if_neg hc]
    · have heF : commentElig p = false := by
        cases hb : commentElig p
        · rfl
        · exact absurd hb he
      have hm : ¬ (mentionsPO p n = true) := by
        simp only [mentionsPO, heF, Bool.false_and]
        exact Bool.false_ne_true
      rw [List.filter_cons, if_neg hm]
      simp only [if_neg he]

/-- C6: the set of PO numbers the recovery path requests equals exactly
the mined keys minus the already-collected PO numbers; each recovered row
is assigned the cost-center key recorded for its PO number in the mined
map; and the mined map itself maps each PO number to the key of the LAST
scanned project whose commentary mentions it. -/
theorem comment_recovery_requested_set (ps : List ProjRec)
    (existing : List String) (results : List FetchRow) :
    (∀ n, n ∈ requestedPOs (parseCommentPoMap ps) existing ↔
      ((lookupKV n (parseCommentPoMap ps)).isSome ∧ ¬ n ∈ existing)) ∧
    (∀ r ∈ results, ∀ v,
      lookupKV r.po_number (parseCommentPoMap ps) = some v →
      (mkRecovered (parseCommentPoMap ps) r).sap_project_definition = v) ∧
    (∀ n, lookupKV n (parseCommentPoMap ps) =
      ((ps.filter (fun p => mentionsPO p n)).getLast?).map
        (·.sap_project_definition)) := by
  refine ⟨?_, ?_, ?_⟩
  · intro n
    rw [requestedPOs, List.mem_filter]
    constructor
    · rintro ⟨hmem, hb⟩
      refine ⟨(lookupKV_isSome_iff_mem_keys _ _).mpr hmem, ?_⟩
      rw [Bool.not_eq_true'] at hb
      simpa using hb
    · rintro ⟨hsome, hnin⟩
      refine ⟨(lookupKV_isSome_iff_mem_keys _ _).mp hsome, ?_⟩
      rw [Bool.not_eq_true']
      cases hb : existing.contains n
      · rfl
      · exact absurd (by simpa using hb) hnin
  · intro r _ v hv
    simp [mkRecovered, hv]
  · intro n
    rw [parseCommentPoMap, parse_foldl_lookup]
    simp [lookupKV]

/-- C6 witness: with one project whose commentary reads
"APTIM PO# 40836460" and nothing yet collected, the recovery requests
exactly that PO number and attaches the commenting cost-center key to the
fetched row. -/
theorem comment_recovery_requested_set_witness :
    "40836460" ∈ requestedPOs
      (parseCommentPoMap [⟨"1", "", "Active", "USFC-000001", "", "",
        "APTIM PO# 40836460", none, none, none, none, "", ""⟩]) [] ∧
    (mkRecovered
        (parseCommentPoMap [⟨"1", "", "Active", "USFC-000001", "", "",
          "APTIM PO# 40836460", none, none, none, none, "", ""⟩])
        ⟨"40836460", "APTIM Environmental", some 100, some 0, some 100,
          "", "", ""⟩).sap_project_definition = "USFC-000001" := by
  have h := comment_recovery_requested_set
    [⟨"1", "", "Active", "USFC-000001", "", "",
      "APTIM PO# 40836460", none, none, none, none, "", ""⟩] []
    [⟨"40836460", "APTIM Environmental", some 100, some 0, some 100,
      "", "", ""⟩]
  constructor
  · exact (h.1 "40836460").mpr ⟨by decide, by simp⟩
  · exact h.2.1 _ (by simp) "USFC-000001" (by decide)

/- ── Merge lemmas ──────────────────────────────────────────────────── -/

theorem foldl_mergeStep_eq :
    ∀ (l : List PORec) (acc : List PORec) (seen : List String),
      l.foldl mergeStep (acc, seen) =
        (acc ++ addNew seen l,
          ((addNew seen l).map (·.po_number)).reverse ++ seen) := by
  intro l
  induction l with
  | nil => intro acc seen; simp [addNew]
  | cons po rest ih =>
    intro acc seen
    rw [List.foldl_cons]
    by_cases h : seen.contains po.po_number = true
    · have h2 : po.po_number ∈ seen := by simpa using h
      rw [show mergeStep (acc, seen) po = (acc, seen) from by
        simp [mergeStep, h2]]
      rw [ih]
      simp only [addNew, if_pos h]
    · have h2 : ¬ po.po_number ∈ seen := by simpa using h
      rw [show mergeStep (acc, seen) po =
          (acc ++ [po], po.po_number :: seen) from by
        simp [mergeStep, h2]]
      rw [ih]
      simp only [addNew, if_neg h, List.map_cons, List.reverse_cons,
        List.append_assoc, List.cons_append, List.nil_append,
        List.singleton_append]

theorem mem_addNew_map (n : String) :
    ∀ (l : List PORec) (seen : List String),
      (n ∈ (addNew seen l).map (·.po_number)) ↔
        (n ∈ l.map (·.po_number) ∧ ¬ n ∈ seen) := by
  intro l
  induction l with
  | nil => intro seen; simp [addNew]
  | cons po rest ih =>
    intro seen
    by_cases h : seen.contains po.po_number = true
    · rw [show addNew seen (po :: rest) = addNew seen rest from by
        simp only [addNew, if_pos h]]
      rw [ih]
      simp only [List.map_cons, List.mem_cons]
      constructor
      · rintro ⟨hm, hs⟩
        exact ⟨Or.inr hm, hs⟩
      · rintro ⟨hm | hm, hs⟩
        · subst hm
          exact absurd (by simpa using h) hs
        · exact ⟨hm, hs⟩
    · have hnum : ¬ po.po_number ∈ seen := fun hin => h (by simp [hin])
      rw [show addNew seen (po :: rest) =
          po :: addNew (po.po_number :: seen) rest from by
        simp only [addNew, if_neg h]]
      simp only [List.map_cons, List.mem_cons, ih]
      constructor
      · rintro (rfl | ⟨hm, hs⟩)
        · exact ⟨Or.inl rfl, hnum⟩
        · exact ⟨Or.inr hm, fun hin => hs (Or.inr hin)⟩
      · rintro ⟨hm | hm, hs⟩
        · exact Or.inl hm
        · by_cases hnp : n = po.po_number
          · exact Or.inl hnp
          · refine Or.inr ⟨hm, ?_⟩
            rintro (h1 | h1)
            · exact hnp h1
            · exact hs h1

theorem addNew_map_nodup :
    ∀ (l : List PORec) (seen : List String),
      ((addNew seen l).map (·.po_number)).Nodup := by
  intro l
  induction l with
  | nil => intro seen; simp [addNew]
  | cons po rest ih =>
    intro seen
    by_cases h : seen.contains po.po_number = true
    · rw [show addNew seen (po :: rest) = addNew seen rest from by
        simp only [addNew, if_pos h]]
      exact ih seen
    · rw [show addNew seen (po :: rest) =
          po :: addNew (po.po_number :: seen) rest from by
        simp only [addNew, if_neg h]]
      rw [List.map_cons, List.nodup_cons]
      refine ⟨?_, ih _⟩
      intro hin
      rw [mem_addNew_map] at hin
      exact hin.2 (List.mem_cons_self _ _)

theorem addNew_find (n : String) :
    ∀ (l : List PORec) (seen : List String), ¬ n ∈ seen →
      (addNew seen l).find? (fun po => po.po_number == n) =
        l.find? (fun po => po.po_number == n) := by
  intro l
  induction l with
  | nil => intro seen _; simp [addNew]
  | cons po rest ih =>
    intro seen hn
    by_cases h : seen.contains po.po_number = true
    · have hne : ¬ (po.po_number == n) = true := by
        intro hb
        apply hn
        rw [← beq_iff_eq.mp hb]
        simpa using h
      rw [show addNew seen (po :: rest) = addNew seen rest from by
        simp only [addNew, if_pos h]]
      rw [ih seen hn]
      exact (List.find?_cons_of_neg rest hne).symm
    · rw [show addNew seen (po :: rest) =
          po :: addNew (po.po_number :: seen) rest from by
        simp only [addNew, if_neg h]]
      cases hb : (po.po_number == n)
      · rw [List.find?_cons_of_neg (addNew (po.po_number :: seen) rest)
            (by simp [hb]),
          List.find?_cons_of_neg rest (by simp [hb])]
        apply ih
        intro hin
        rcases List.mem_cons.mp hin with h1 | h1
        · rw [beq_eq_false_iff_ne] at hb
          exact hb h1.symm
        · exact hn h1
      · rw [List.find?_cons_of_pos (addNew (po.po_number :: seen) rest) hb,
          List.find?_cons_of_pos rest hb]

/-- C1: when the direct PO list carries pairwise-distinct PO numbers (the
direct source keys its records by PO number), the merged list handed to
the loader has pairwise-distinct PO numbers, and for every PO number the
record retained is the first one occurring in discovery order — direct,
then umbrella, then comment-recovered. -/
theorem merged_po_list_unique_first_wins (direct sams comment : List PORec)
    (h : (direct.map (·.po_number)).Nodup) :
    ((mergePos direct sams comment).map (·.po_number)).Nodup ∧
    ∀ n, (mergePos direct sams comment).find? (fun po => po.po_number == n) =
      (direct ++ sams ++ comment).find? (fun po => po.po_number == n) := by
  have hmerge : mergePos direct sams comment =
      (direct ++ addNew (direct.map (·.po_number)) sams) ++
        addNew
          (((addNew (direct.map (·.po_number)) sams).map
              (·.po_number)).reverse ++ direct.map (·.po_number)) comment := by
    simp only [mergePos]
    rw [foldl_mergeStep_eq, foldl_mergeStep_eq]
  constructor
  · rw [hmerge, List.map_append, List.map_append]
    refine List.Nodup.append
      (List.Nodup.append h (addNew_map_nodup _ _) ?_)
      (addNew_map_nodup _ _) ?_
    · intro a ha hin
      exact ((mem_addNew_map a sams _).mp hin).2 ha
    · intro a ha hin
      have h2 := (mem_addNew_map a comment _).mp hin
      apply h2.2
      rw [List.mem_append] at ha
      rw [List.mem_append]
      rcases ha with ha | ha
      · exact Or.inr ha
      · exact Or.inl (List.mem_reverse.mpr ha)
  · intro n
    rw [hmerge, List.find?_append, List.find?_append,
      List.find?_append, List.find?_append]
    by_cases hd : n ∈ direct.map (·.po_number)
    · have hsome : (direct.find? (fun po => po.po_number == n)).isSome := by
        rw [List.find?_isSome]
        obtain ⟨po, hpo, rfl⟩ := List.mem_map.mp hd
        exact ⟨po, hpo, by simp⟩
      obtain ⟨x, hx⟩ := Option.isSome_iff_exists.mp hsome
      rw [hx]
      rw [Option.or_some, Option.or_some, Option.or_some, Option.or_some]
    · have hdnone : direct.find? (fun po => po.po_number == n) = none := by
        rw [List.find?_eq_none]
        intro x hx hpx
        exact hd (List.mem_map.mpr ⟨x, hx, beq_iff_eq.mp hpx⟩)
      rw [hdnone]
      simp only [Option.none_or]
      rw [addNew_find n sams _ hd]
      by_cases hs : n ∈ sams.map (·.po_number)
      · have hsome : (sams.find? (fun po => po.po_number == n)).isSome := by
          rw [List.find?_isSome]
          obtain ⟨po, hpo, rfl⟩ := List.mem_map.mp hs
          exact ⟨po, hpo, by simp⟩
        obtain ⟨x, hx⟩ := Option.isSome_iff_exists.mp hsome
        rw [hx, Option.or_some, Option.or_some]
      · have hsnone : sams.find? (fun po => po.po_number == n) = none := by
          rw [List.find?_eq_none]
          intro x hx hpx
          exact hs (List.mem_map.mpr ⟨x, hx, beq_iff_eq.mp hpx⟩)
        rw [hsnone]
        simp only [Option.none_or]
        apply addNew_find
        intro hin
        rw [List.mem_append] at hin
        rcases hin with hin | hin
        · rw [List.mem_reverse] at hin
          exact hs ((mem_addNew_map n sams _).mp hin).1
        · exact hd hin

/-- C1 witness: a duplicate umbrella PO (same number as a direct PO) and a
duplicate comment PO are dropped; the merged numbers are distinct and the
record found for the overlapping number is the direct one. -/
theorem merged_po_list_unique_first_wins_witness :
    ((mergePos
        ([⟨"40000001", "USFC-000001", "V1", some 10, some 0, some 10, "", "", ""⟩] : List PORec)
        ([⟨"40000001", "USFC-000002", "V2", some 20, some 0, some 20, "", "", ""⟩,
         ⟨"40000002", "USFC-000003", "V3", some 30, some 0, some 30, "", "", ""⟩] : List PORec)
        ([⟨"40000002", "USFC-000004", "V4", some 40, some 0, some 40, "", "", ""⟩] : List PORec)).map
      (·.po_number)).Nodup ∧
    (mergePos
        ([⟨"40000001", "USFC-000001", "V1", some 10, some 0, some 10, "", "", ""⟩] : List PORec)
        ([⟨"40000001", "USFC-000002", "V2", some 20, some 0, some 20, "", "", ""⟩,
         ⟨"40000002", "USFC-000003", "V3", some 30, some 0, some 30, "", "", ""⟩] : List PORec)
        ([⟨"40000002", "USFC-000004", "V4", some 40, some 0, some 40, "", "", ""⟩] : List PORec)).find?
      (fun po => po.po_number == "40000001") =
    (([⟨"40000001", "USFC-000001", "V1", some 10, some 0, some 10, "", "", ""⟩] : List PORec) ++
      ([⟨"40000001", "USFC-000002", "V2", some 20, some 0, some 20, "", "", ""⟩,
       ⟨"40000002", "USFC-000003", "V3", some 30, some 0, some 30, "", "", ""⟩] : List PORec) ++
      ([⟨"40000002", "USFC-000004", "V4", some 40, some 0, some 40, "", "", ""⟩] : List PORec)).find?
      (fun po => po.po_number == "40000001") := by
  have h := merged_po_list_unique_first_wins
    ([⟨"40000001", "USFC-000001", "V1", some 10, some 0, some 10, "", "", ""⟩] : List PORec)
    ([⟨"40000001", "USFC-000002", "V2", some 20, some 0, some 20, "", "", ""⟩,
     ⟨"40000002", "USFC-000003", "V3", some 30, some 0, some 30, "", "", ""⟩] : List PORec)
    ([⟨"40000002", "USFC-000004", "V4", some 40, some 0, some 40, "", "", ""⟩] : List PORec)
    (by decide)
  exact ⟨h.1, h.2 "40000001"⟩

/- ── Contractor backfill lemmas ────────────────────────────────────── -/

theorem foldl_best_mem (f : String → Int) :
    ∀ (vs : List String) (v0 : String),
      (vs.foldl (fun b w => if f w > f b then w else b) v0) ∈ v0 :: vs := by
  intro vs
  induction vs with
  | nil => intro v0; exact List.mem_cons_self _ _
  | cons w vs ih =>
    intro v0
    rw [List.foldl_cons]
    show (vs.foldl (fun b w => if f w > f b then w else b)
        (if f w > f v0 then w else v0)) ∈ v0 :: w :: vs
    by_cases hw : f w > f v0
    · rw [if_pos hw]
      exact List.mem_cons_of_mem v0 (ih w)
    · rw [if_neg hw]
      rcases List.mem_cons.mp (ih v0) with h1 | h1
      · rw [h1]
        exact List.mem_cons_self _ _
      · exact List.mem_cons_of_mem v0 (List.mem_cons_of_mem w h1)

theorem foldl_best_ge (f : String → Int) :
    ∀ (vs : List String) (v0 u : String), u ∈ v0 :: vs →
      f u ≤ f (vs.foldl (fun b w => if f w > f b then w else b) v0) := by
  intro vs
  induction vs with
  | nil =>
    intro v0 u hu
    rw [List.foldl_nil]
    rcases List.mem_cons.mp hu with h1 | h1
    · rw [h1]
    · cases h1
  | cons w vs ih =>
    intro v0 u hu
    rw [List.foldl_cons]
    show f u ≤ f (vs.foldl (fun b w => if f w > f b then w else b)
        (if f w > f v0 then w else v0))
    have hacc0 : f v0 ≤ f (if f w > f v0 then w else v0) := by
      by_cases hw : f w > f v0
      · rw [if_pos hw]; exact le_of_lt hw
      · rw [if_neg hw]
    have haccw : f w ≤ f (if f w > f v0 then w else v0) := by
      by_cases hw : f w > f v0
      · rw [if_pos hw]
      · rw [if_neg hw]; exact le_of_not_lt hw
    have hstep : f (if f w > f v0 then w else v0) ≤
        f (vs.foldl (fun b w => if f w > f b then w else b)
          (if f w > f v0 then w else v0)) :=
      ih _ _ (List.mem_cons_self _ _)
    rcases List.mem_cons.mp hu with h1 | h1
    · subst h1
      exact le_trans hacc0 hstep
    · rcases List.mem_cons.mp h1 with h2 | h2
      · subst h2
        exact le_trans haccw hstep
      · exact ih _ u (List.mem_cons_of_mem _ h2)

theorem bestVendor_unique_max {pos : List StoredPO} {v : String}
    (hv : isUniqueMaxVendor pos v) : bestVendor pos = some v := by
  obtain ⟨hmem, hmax⟩ := hv
  unfold bestVendor
  cases hd : (pos.map (·.vendor)).dedup with
  | nil =>
    exfalso
    have hvd : v ∈ (pos.map (·.vendor)).dedup := List.mem_dedup.mpr hmem
    rw [hd] at hvd
    cases hvd
  | cons w ws =>
    show some (ws.foldl (fun b w =>
      if vendorSum pos w > vendorSum pos b then w else b) w) = some v
    have hrmem := foldl_best_mem (vendorSum pos) ws w
    have hvmem : v ∈ w :: ws := by
      rw [← hd]
      exact List.mem_dedup.mpr hmem
    have hrin : (ws.foldl (fun b w =>
        if vendorSum pos w > vendorSum pos b then w else b) w) ∈
        pos.map (·.vendor) := by
      apply List.mem_dedup.mp
      rw [hd]
      exact hrmem
    by_cases hr : (ws.foldl (fun b w =>
        if vendorSum pos w > vendorSum pos b then w else b) w) = v
    · rw [hr]
    · exfalso
      have h1 := hmax _ hrin hr
      have h2 := foldl_best_ge (vendorSum pos) ws w v hvmem
      exact absurd h1 (not_lt.mpr h2)

/-- C7: after loading, every source project surviving the key-based insert
is persisted backfilled; when it has a non-empty cost-center key and at
least one linked PO row whose vendor sums admit a unique maximum, its
persisted contractor-of-record is that maximal vendor — independently of
the contractor value carried from the source; a project with an empty key
or no linked PO keeps the contractor it was inserted with. -/
theorem contractor_backfill_max_vendor (projects : List ProjRec)
    (pos : List PORec) (p : ProjRec)
    (hp : p ∈ dedupByKey (·.project_id) projects) :
    (backfillGC (poTable pos) (storeProjectRow p)) ∈
      (loadTables projects pos).projects ∧
    (∀ v, p.sap_project_definition ≠ "" →
      isUniqueMaxVendor ((poTable pos).filter
        (fun po => po.sap_project_definition = p.sap_project_definition)) v →
      (backfillGC (poTable pos) (storeProjectRow p)).general_contractor = v) ∧
    ((p.sap_project_definition = "" ∨
        (poTable pos).filter (fun po =>
          po.sap_project_definition = p.sap_project_definition) = []) →
      (backfillGC (poTable pos) (storeProjectRow p)).general_contractor =
        p.general_contractor) := by
  refine ⟨?_, ?_, ?_⟩
  · show _ ∈ ((dedupByKey (·.project_id) projects).map storeProjectRow).map
      (backfillGC (poTable pos))
    exact List.mem_map.mpr ⟨storeProjectRow p, List.mem_map.mpr ⟨p, hp, rfl⟩, rfl⟩
  · intro v hsap hv
    have hlinkne : ((poTable pos).filter
        (fun po => po.sap_project_definition = p.sap_project_definition)) ≠ [] := by
      intro hempty
      obtain ⟨hvmem, _⟩ := hv
      rw [hempty] at hvmem
      simp at hvmem
    simp only [backfillGC, storeProjectRow]
    rw [if_pos ⟨hsap, hlinkne⟩]
    simp only [Option.getD]
    rw [bestVendor_unique_max hv]
  · intro hor
    simp only [backfillGC, storeProjectRow]
    rw [if_neg]
    rintro ⟨h1, h2⟩
    rcases hor with hor | hor
    · exact h1 hor
    · exact h2 hor

/-- C7 witness: a project inserted with source contractor "SRC-GC" and two
linked POs from vendors A (total 100) and B (total 200) is persisted with
contractor B. -/
theorem contractor_backfill_max_vendor_witness :
    (backfillGC
        (poTable
          ([⟨"40000010", "USFC-000007", "A", some 100, some 0, some 100, "", "", ""⟩,
            ⟨"40000011", "USFC-000007", "B", some 200, some 0, some 200, "", "", ""⟩] :
            List PORec))
        (storeProjectRow ⟨"7", "700", "Active", "USFC-000007", "", "SRC-GC",
          "", none, none, none, none, "", ""⟩)).general_contractor = "B" := by
  have h := contractor_backfill_max_vendor
    [⟨"7", "700", "Active", "USFC-000007", "", "SRC-GC",
      "", none, none, none, none, "", ""⟩]
    ([⟨"40000010", "USFC-000007", "A", some 100, some 0, some 100, "", "", ""⟩,
      ⟨"40000011", "USFC-000007", "B", some 200, some 0, some 200, "", "", ""⟩] :
      List PORec)
    ⟨"7", "700", "Active", "USFC-000007", "", "SRC-GC",
      "", none, none, none, none, "", ""⟩
    (by decide)
  exact h.2.1 "B" (by decide) (by unfold isUniqueMaxVendor; decide)
